import Mathlib

/-!
Shallow embedding of the `rml` command-line client (Recurse-ML/rml) for
verification of its natural-language specification.

Conventions used throughout:
* Python strings that have been run through `str.splitlines(keepends=True)`
  are modelled as `List String`: each element is one line of the original
  text, line terminators kept.  All diff-parsing entry points below take
  this line list directly.
* Python `int` values that can go negative (0-based line indices obtained
  as `header_number - 1`, running line cursors) are modelled as `Int`;
  values matched by the regex group `\d+` (header numbers, lengths) are
  modelled as `Nat`.
* Python dictionaries whose only observed operations are lookup and
  `{**a, **b}` merging are modelled as functions `String → Option α`.
* Fallible Python code (uncaught `raise`, `assert`) is modelled with
  `Except String`, the error string being the Python exception message.
-/

namespace Rml

/-- The `Operator` enumeration from `src/rml/datatypes.py`.  `REPLACE`
("R") is declared in the source but never produced by the diff parsers. -/
inductive Operator
  | ADD
  | REMOVE
  | REPLACE
  | NO_CHANGE
deriving DecidableEq

/-- The string value of each `Operator` member (`"+"`, `"-"`, `"R"`, `" "`),
as used by `f"{change.operator.value}{change.content}"` in `ui.py`. -/
def Operator.value : Operator → String
  | .ADD => "+"
  | .REMOVE => "-"
  | .REPLACE => "R"
  | .NO_CHANGE => " "

/-- The `DiffLine` named tuple from `src/rml/datatypes.py` (the unused
`replacement` field is omitted: no code path of the claims reads it). -/
structure DiffLine where
  operator : Operator
  content : String
  old_line_idx : Option Int
  new_line_idx : Option Int
deriving DecidableEq

/-- The `Diff` named tuple from `src/rml/datatypes.py` (one parsed hunk). -/
structure Diff where
  old_start_line_idx : Int
  new_start_line_idx : Int
  old_len : Nat
  new_len : Nat
  changes : List DiffLine
deriving DecidableEq

instance : Inhabited Diff := ⟨⟨0, 0, 0, 0, []⟩⟩

/-- ASCII whitespace as matched by Python's regex class `\s`. -/
def isPySpace (c : Char) : Bool :=
  c = ' ' || c = '\t' || c = '\n' || c = '\r' || c = '\x0b' || c = '\x0c'

/-- Longest digit prefix of a character list (the regex `\d+`, greedy). -/
def spanDigits : List Char → List Char × List Char
  | [] => ([], [])
  | c :: cs =>
    if c.isDigit then
      let p := spanDigits cs
      (c :: p.1, p.2)
    else ([], c :: cs)

/-- Numeric value of a decimal digit string (how Python's `int` reads the
digit-only groups captured by `\d+`). -/
def digitsToNat (ds : List Char) : Nat :=
  ds.foldl (fun a c => a * 10 + (c.toNat - 48)) 0

/-- Consume the optional regex group `(?:,(\d+))?`: a comma followed by at
least one digit, or nothing. -/
def matchOptLen (cs : List Char) : Option Nat × List Char :=
  match cs with
  | ',' :: rest =>
    match spanDigits rest with
    | ([], _) => (none, cs)
    | (ds, rest') => (some (digitsToNat ds), rest')
  | _ => (none, cs)

/-- `DIFF_HEADER_PTRN.match(line)` from `src/rml/utils.py`: the anchored
regex `@@\s-(old_start)(?:,(old_len))?\s+\+(new_start)(?:,(new_len))?\s@@`
applied to the start of a line; trailing characters are ignored, exactly as
`re.match` does.  Returns the four captured numeric groups on a match. -/
def matchDiffHeader (cs : List Char) : Option (Nat × Option Nat × Nat × Option Nat) :=
  match cs with
  | '@' :: '@' :: s1 :: rest =>
    if isPySpace s1 then
      match rest with
      | '-' :: rest1 =>
        match spanDigits rest1 with
        | ([], _) => none
        | (ds1, rest2) =>
          let old_start := digitsToNat ds1
          let (old_len, rest3) := matchOptLen rest2
          let sp := rest3.takeWhile isPySpace
          let rest4 := rest3.dropWhile isPySpace
          if sp.isEmpty then none
          else
            match rest4 with
            | '+' :: rest5 =>
              match spanDigits rest5 with
              | ([], _) => none
              | (ds2, rest6) =>
                let new_start := digitsToNat ds2
                let (new_len, rest7) := matchOptLen rest6
                match rest7 with
                | s2 :: '@' :: '@' :: _ =>
                  if isPySpace s2 then some (old_start, old_len, new_start, new_len)
                  else none
                | _ => none
            | _ => none
      | _ => none
    else none
  | _ => none

/-- A line whose `line.strip()` is empty, for the ASCII whitespace set
(the lines skipped by the parser when they do not start with a space). -/
def isBlankLine (l : String) : Bool :=
  l.data.all isPySpace

/-- Python's `str.startswith`, as a character-list prefix test. -/
def pyStartsWith (l pre : String) : Bool :=
  pre.data.isPrefixOf l.data

/-- The first loop of `parse_diff_str_single_hunk`: scan lines until one
matches the hunk-header regex, returning its numeric groups and the lines
remaining after it; `none` models falling off the iterator (the `for/else`
branch that raises `ValueError`). -/
def findHeader : List String → Option ((Nat × Option Nat × Nat × Option Nat) × List String)
  | [] => none
  | l :: ls =>
    match matchDiffHeader l.data with
    | some h => some (h, ls)
    | none => findHeader ls

/-- The body loop of `parse_diff_str_single_hunk` from `src/rml/utils.py`:
walks the lines after the header with the two running cursors, skipping
whitespace-only lines that do not start with a space and the
`\ No newline at end of file` marker, and turning each remaining line into
a `DiffLine` keyed on its first character (`+`/`-`/space; anything else
trips the `assert`). -/
def parseBodyLines (oldIdx newIdx : Int) : List String → Except String (List DiffLine)
  | [] => .ok []
  | l :: ls =>
    if isBlankLine l && !(l.data.head? == some ' ') then
      parseBodyLines oldIdx newIdx ls
    else if pyStartsWith l "\\ No newline at end of file" then
      parseBodyLines oldIdx newIdx ls
    else
      match l.data with
      | [] => .error "IndexError: string index out of range"
      | c :: rest =>
        let content := String.mk rest
        if c = '+' then
          (parseBodyLines oldIdx (newIdx + 1) ls).map
            (fun ds => ⟨.ADD, content, none, some newIdx⟩ :: ds)
        else if c = '-' then
          (parseBodyLines (oldIdx + 1) newIdx ls).map
            (fun ds => ⟨.REMOVE, content, some oldIdx, none⟩ :: ds)
        else if c = ' ' then
          (parseBodyLines (oldIdx + 1) (newIdx + 1) ls).map
            (fun ds => ⟨.NO_CHANGE, content, some oldIdx, some newIdx⟩ :: ds)
        else
          .error ("Couldn't parse diff line: '" ++ l ++ "'")

/-- `parse_diff_str_single_hunk` from `src/rml/utils.py`, over the
`splitlines(keepends=True)` line list of its string argument. -/
def parse_diff_str_single_hunk (lines : List String) : Except String Diff :=
  match findHeader lines with
  | none => .error "Invalid diff format"
  | some ((old_start, old_len?, new_start, new_len?), rest) =>
    let old_start_line_idx : Int := (old_start : Int) - 1
    let new_start_line_idx : Int := (new_start : Int) - 1
    let old_len := old_len?.getD 1
    let new_len := new_len?.getD 1
    (parseBodyLines old_start_line_idx new_start_line_idx rest).map
      (fun changes => ⟨old_start_line_idx, new_start_line_idx, old_len, new_len, changes⟩)

/-- The preamble filter of `parse_diff_str_multi_hunk`: drop the
`diff --git`, `index `, `---` and `+++` lines. -/
def cleanDiffLines (lines : List String) : List String :=
  lines.filter (fun l =>
    !(pyStartsWith l "diff --git" || pyStartsWith l "index " ||
      pyStartsWith l "---" || pyStartsWith l "+++"))

/-- The grouping loop of `parse_diff_str_multi_hunk`: split the cleaned
lines into per-hunk chunks.  `chunks` plays the role of the `diffs` list
(only its length is consulted) and `current` of `current_hunk_lines`;
lines seen while both are empty — i.e. before the first hunk header — are
skipped. -/
def multiHunkChunks : List (List String) → List String → List String → List (List String)
  | chunks, current, [] =>
    if current.length > 0 then chunks ++ [current] else chunks
  | chunks, current, l :: ls =>
    if (matchDiffHeader l.data).isSome then
      if current.length > 0 then
        multiHunkChunks (chunks ++ [current]) [l] ls
      else
        multiHunkChunks chunks (current ++ [l]) ls
    else if chunks.length = 0 && current.length = 0 then
      multiHunkChunks chunks current ls
    else
      multiHunkChunks chunks (current ++ [l]) ls

/-- `parse_diff_str_multi_hunk` from `src/rml/utils.py`, over the line
list of its string argument: clean the git preamble, chunk at hunk
headers, and parse each chunk with the single-hunk parser (errors
propagate from the first failing chunk, as the Python exception would). -/
def parse_diff_str_multi_hunk (lines : List String) : Except String (List Diff) :=
  (multiHunkChunks [] [] (cleanDiffLines lines)).mapM parse_diff_str_single_hunk

/-- `make_diff_header` from `src/rml/utils.py`. -/
def make_diff_header (d : Diff) : String :=
  "@@ -" ++ toString (d.old_start_line_idx + 1) ++ "," ++ toString d.old_len ++
    " +" ++ toString (d.new_start_line_idx + 1) ++ "," ++ toString d.new_len ++ " @@\n"

/-- The hunk-selection filter of `create_comment_diff` (`src/rml/ui.py`):
the parsed hunks whose new-side range, `new_start_line_idx + 1` inclusive
to `new_start_line_idx + 1 + new_len` exclusive, contains `line_no`. -/
def diffsWithComment (parsed : List Diff) (line_no : Int) : List Diff :=
  parsed.filter (fun d =>
    decide (d.new_start_line_idx + 1 ≤ line_no) &&
    decide (line_no < d.new_start_line_idx + 1 + (d.new_len : Int)))

/-- One rendered diff line, `f"{change.operator.value}{change.content}"`. -/
def renderChange (c : DiffLine) : String :=
  c.operator.value ++ c.content

/-- The partition loop of `create_comment_diff`: walk `changes` with the
running new-side cursor `curr_new_line` (the old-side cursor is also kept
by the source but never read), sending each rendered line to the before
list while `curr_new_line <= line_no` and to the after list otherwise;
the cursor advances exactly when the change carries a `new_line_idx`. -/
def partitionChanges (line_no : Int) : Int → List DiffLine → List String × List String
  | _, [] => ([], [])
  | curr_new, ch :: rest =>
    let nxt := if ch.new_line_idx.isSome then curr_new + 1 else curr_new
    let p := partitionChanges line_no nxt rest
    if curr_new ≤ line_no then (renderChange ch :: p.1, p.2)
    else (p.1, renderChange ch :: p.2)

/-- Python's negative-start slice `lst[-n:]` for a natural `n`: for
`n = 0` the slice index is `-0 = 0`, so the WHOLE list is returned; for
`n ≥ 1` it is the last `min n (length lst)` elements. -/
def pySliceLastNeg (n : Nat) (l : List String) : List String :=
  if n = 0 then l else l.drop (l.length - n)

/-- The clipped before/after pair computed by `create_comment_diff` for a
hunk: partition at `line_no`, then clip the before lines with the Python
slice `[-context_window:]` and the after lines with `[:context_window]`
(each slice guarded by the truthiness test the source performs before
extending `full_diff_lines`). -/
def alignClipped (d : Diff) (line_no : Int) (context_window : Nat) :
    List String × List String :=
  let p := partitionChanges line_no (d.new_start_line_idx + 1) d.changes
  ((if p.1.length > 0 then pySliceLastNeg context_window p.1 else []),
   (if p.2.length > 0 then p.2.take context_window else []))

/-- The excerpt assembled by `create_comment_diff` for the unique selected
hunk: the reconstructed header followed by the clipped before and after
lines. -/
def assembleExcerpt (d : Diff) (line_no : Int) (context_window : Nat) : List String :=
  [make_diff_header d] ++ (alignClipped d line_no context_window).1 ++
    (alignClipped d line_no context_window).2

/-- `create_comment_diff` from `src/rml/ui.py`, abstracted over rendering:
the returned `elements` list is modelled as the list of diff-panel
contents (each a list of rendered lines); the function is parameterised by
the comment's already-split `diff_str` lines and its `line_no`.  Zero
matching hunks yields the empty elements list (a logged warning only);
more than one raises `AssertionError`. -/
def create_comment_diff (diff_lines : List String) (line_no : Int)
    (context_window : Nat) : Except String (List (List String)) :=
  match parse_diff_str_multi_hunk diff_lines with
  | .error e => .error e
  | .ok parsed =>
    let selected := diffsWithComment parsed line_no
    if selected.length = 0 then .ok []
    else if selected.length > 1 then
      .error "Found multiple diffs containing the same lines, this should not happen"
    else
      let d := selected.headD default
      let p := partitionChanges line_no (d.new_start_line_idx + 1) d.changes
      if p.1.length > 0 || p.2.length > 0 then
        .ok [assembleExcerpt d line_no context_window]
      else .ok []

/-! ## Workflow engine (`src/rml/ui.py`, classes `Step` and `Workflow`) -/

/-- `StepState` from `src/rml/ui.py`.  `TODO` is the state every `Step` is
constructed with (the specification calls this initial state "Pending",
its `PENDING` corresponds to the spec's "Running"). -/
inductive StepState
  | TODO
  | PENDING
  | DONE
  | FAIL
deriving DecidableEq

/-- Python dictionaries used as keyword-argument carriers, modelled by
their lookup function. -/
def PyDict (α : Type) : Type := String → Option α

/-- The empty dictionary `{}`. -/
def emptyDict {α : Type} : PyDict α := fun _ => none

/-- `{**a, **b}`: entries of `b` override entries of `a` on collision. -/
def dictMerge {α : Type} (a b : PyDict α) : PyDict α :=
  fun k => (b k).orElse (fun _ => a k)

/-- A `Step` from `src/rml/ui.py`: its display name, its executor (which
may raise, modelled by `Except ε`, and may return `None`, modelled by the
`Option` in the result — the caller coerces `None` to `{}` via
`result or {}`), and its current state (set to `TODO` by `__init__`). -/
structure WStep (α ε : Type) where
  name : String
  func : PyDict α → Except ε (Option (PyDict α))
  state : StepState

/-- The step loop of `Workflow._run_rich_mode` (`src/rml/ui.py:106-130`):
each step is set `PENDING`, receives `{**prev_output, **inputs}`; on
success its (None-coerced) result becomes the new accumulator and its
state `DONE`; on exception its state becomes `FAIL`, the original
exception is re-raised, and the remaining steps are never invoked,
keeping their pre-run state.  Returns the final state of every step in
order, paired with the propagated error or the final accumulator. -/
def runSteps {α ε : Type} (inputs : PyDict α) :
    PyDict α → List (WStep α ε) → List StepState × Except ε (PyDict α)
  | prev, [] => ([], .ok prev)
  | prev, s :: rest =>
    match s.func (dictMerge prev inputs) with
    | .ok result =>
      let out := result.getD emptyDict
      let p := runSteps inputs out rest
      (.DONE :: p.1, p.2)
    | .error e => (.FAIL :: rest.map (fun t => t.state), .error e)

/-- The step loop of `Workflow._run_markdown_mode` (`src/rml/ui.py:132-150`):
the merge, None-coercion, accumulator replacement and re-raise of the
original exception are exactly as in rich mode, but this method never
calls `set_state` — progress is printed instead — so every step keeps its
pre-run state whether it succeeds, fails, or is never reached. -/
def runStepsMarkdown {α ε : Type} (inputs : PyDict α) :
    PyDict α → List (WStep α ε) → List StepState × Except ε (PyDict α)
  | prev, [] => ([], .ok prev)
  | prev, s :: rest =>
    match s.func (dictMerge prev inputs) with
    | .ok result =>
      let out := result.getD emptyDict
      let p := runStepsMarkdown inputs out rest
      (s.state :: p.1, p.2)
    | .error e => (s.state :: rest.map (fun t => t.state), .error e)

/-- `Workflow.run` from `src/rml/ui.py` with `markdown_mode = False`:
dispatch to `_run_rich_mode`, starting from the empty accumulator
`prev_output = {}`. -/
def workflow_run {α ε : Type} (steps : List (WStep α ε)) (inputs : PyDict α) :
    List StepState × Except ε (PyDict α) :=
  runSteps inputs emptyDict steps

/-- `Workflow.run` from `src/rml/ui.py` with `markdown_mode = True`:
dispatch to `_run_markdown_mode`, starting from the empty accumulator
`prev_output = {}`. -/
def workflow_run_markdown {α ε : Type} (steps : List (WStep α ε))
    (inputs : PyDict α) : List StepState × Except ε (PyDict α) :=
  runStepsMarkdown inputs emptyDict steps

/-! ## Retry policy (`src/rml/__init__.py`) -/

/-- The `httpx` exception shapes distinguished by the retry predicate:
`httpStatusError s` is an `HTTPStatusError` whose `response.status_code`
is `s`; `requestError` is any `RequestError` that is not a status error
(`ConnectError`, `TimeoutException`, ...); `otherException` is anything
else. -/
inductive PyHTTPError
  | httpStatusError (status : Nat)
  | requestError
  | otherException
deriving DecidableEq

/-- `should_retry_http_error` from `src/rml/__init__.py`: `True` only for
an `HTTPStatusError` with a 4xx or 5xx status, `False` for every other
exception (including connection-level `RequestError`s). -/
def should_retry_http_error : PyHTTPError → Bool
  | .httpStatusError s => decide (400 ≤ s) && decide (s < 600)
  | _ => false

/-- The `isinstance(e, (HTTPStatusError, RequestError))` test of the
lambda passed to `retry_if_exception`. -/
def isHTTPStatusOrRequestError : PyHTTPError → Bool
  | .httpStatusError _ => true
  | .requestError => true
  | .otherException => false

/-- The predicate handed to `tenacity.retry_if_exception` on both
`get_check_status` and `post_check`. -/
def retryPredicate (e : PyHTTPError) : Bool :=
  isHTTPStatusOrRequestError e && should_retry_http_error e

/-- Outcome of a `tenacity`-wrapped call: success, the original exception
propagated because the predicate rejected it, or a `RetryError` wrapping
the last exception once `stop_after_attempt` fires (`reraise=False`). -/
inductive RetryOutcome (α : Type)
  | ok (a : α)
  | raised (e : PyHTTPError)
  | retryError (e : PyHTTPError)
deriving DecidableEq

/-- The `tenacity` attempt loop with `stop_after_attempt` semantics: the
operation is modelled as a function from the 1-based attempt number to its
result; returns the number of attempts actually made and the outcome.
Backoff sleeping (`wait_exponential`) affects only timing and is omitted. -/
def tenacityAttempts {α : Type} (pred : PyHTTPError → Bool)
    (op : Nat → Except PyHTTPError α) : Nat → Nat → Nat × RetryOutcome α
  | attempt, left =>
    match op attempt with
    | .ok a => (attempt, .ok a)
    | .error e =>
      if !pred e then (attempt, .raised e)
      else
        match left with
        | 0 => (attempt, .retryError e)
        | 1 => (attempt, .retryError e)
        | l + 2 => tenacityAttempts pred op (attempt + 1) (l + 1)

/-- A call wrapped as in `get_check_status` / `post_check`:
`stop_after_attempt(5)`, `reraise=False`, retry predicate
`retryPredicate`. -/
def retriedCall {α : Type} (op : Nat → Except PyHTTPError α) : Nat × RetryOutcome α :=
  tenacityAttempts retryPredicate op 1 5

/-! ## Device-flow token polling (`src/rml/auth.py`, `poll_for_token`) -/

/-- One poll of the GitHub token endpoint, as discriminated by
`poll_for_token`: a non-200 HTTP status, a body carrying `access_token`,
or a body carrying one of the recognised `error` codes (any unrecognised
code falls into `otherError`). -/
inductive PollResponse
  | badStatus (code : Nat)
  | token (t : String)
  | authPending
  | slowDown
  | expiredToken
  | accessDenied
  | otherError (msg : String)
deriving DecidableEq

/-- `poll_for_token` from `src/rml/auth.py`, driven by the finite trace of
responses the server returns to successive polls.  The result records the
durations of the `asyncio.sleep` calls performed, in order, together with
`some token` on success or `none` on any terminal failure (non-200
status, `expired_token`, `access_denied`, or an unrecognised error code).
The outer `Option` is `none` when the trace is exhausted while the
`while True` loop would keep polling. -/
def poll_for_token (interval : Nat) :
    List PollResponse → Option (List Nat × Option String)
  | [] => none
  | r :: rs =>
    match r with
    | .badStatus _ => some ([], none)
    | .token t => some ([], some t)
    | .authPending =>
      (poll_for_token interval rs).map (fun p => (interval :: p.1, p.2))
    | .slowDown =>
      (poll_for_token (interval + 5) rs).map (fun p => ((interval + 5) :: p.1, p.2))
    | .expiredToken => some ([], none)
    | .accessDenied => some ([], none)
    | .otherError _ => some ([], none)

/-! ## Credential store (`src/rml/auth.py`, `store_env_data` and friends)

The `.env.rml` file is modelled as its list of newline-separated lines
(`write_text` joins lines with `"\n"`; theorems about the store therefore
hypothesise that keys and values contain no newline, so that this line
view coincides with the written string).  `dotenv_values` is modelled for
plain `KEY=VALUE` lines: each non-empty line is split at its first `=`
into key and value, a line without `=` yields a `None` value, and later
occurrences of a key override earlier ones with Python-dict insertion
order. -/

/-- Split one line at its first `=`: the key is everything before it, the
value everything after (`none` when the line has no `=`, matching
python-dotenv's `None` value for a bare key). -/
def parseEnvLine (l : String) : Option (String × Option String) :=
  if l = "" then none
  else
    match l.data.dropWhile (fun c => c ≠ '=') with
    | [] => some (String.mk (l.data.takeWhile (fun c => c ≠ '=')), none)
    | _ :: v => some (String.mk (l.data.takeWhile (fun c => c ≠ '=')), some (String.mk v))

/-- Insert into an insertion-ordered dictionary: overwrite in place when
the key exists, append otherwise (Python `dict` assignment). -/
def dictInsert {α : Type} (d : List (String × α)) (k : String) (v : α) :
    List (String × α) :=
  if d.any (fun p => p.1 = k) then
    d.map (fun p => if p.1 = k then (k, v) else p)
  else d ++ [(k, v)]

/-- Python `dict.update`: assign every pair of `upds` in order. -/
def dictUpdate {α : Type} (d : List (String × α)) (upds : List (String × α)) :
    List (String × α) :=
  upds.foldl (fun acc p => dictInsert acc p.1 p.2) d

/-- One line's contribution to `dotenv_values`: parse it and assign into
the accumulated dictionary (a skipped blank line contributes nothing). -/
def dotenvStep (acc : List (String × Option String)) (l : String) :
    List (String × Option String) :=
  match parseEnvLine l with
  | none => acc
  | some kv => dictInsert acc kv.1 kv.2

/-- `dotenv_values(ENV_FILE_PATH)` over the file's line list: parse each
line and accumulate into an insertion-ordered dictionary. -/
def dotenv_values (file : List String) : List (String × Option String) :=
  file.foldl dotenvStep []

/-- `store_env_data` from `src/rml/auth.py`: read the existing file,
coerce `None` values to `""` (`{k: v or "" for ...}`), `update` with the
new data, and rewrite the file as `key=value` lines in dictionary order. -/
def store_env_data (data : List (String × String)) (file : List String) :
    List String :=
  let env0 := (dotenv_values file).map (fun p => (p.1, p.2.getD ""))
  let env1 := dictUpdate env0 data
  env1.map (fun p => p.1 ++ "=" ++ p.2)

/-- `get_env_value` from `src/rml/auth.py`: `dotenv_values(...).get(key)`.
A key bound to a `None` value and an absent key both read as `none`,
exactly as in Python. -/
def get_env_value (file : List String) (key : String) : Option String :=
  ((dotenv_values file).find? (fun p => p.1 = key)).bind (fun p => p.2)

/-! ## Specification-side definitions

The following definitions are written from the specification's words, not
from the source; they exist solely to be compared with the embedded code
in refinement theorems. -/

/-- The four numeric fields of a hunk header rendered in the canonical
`@@ -a,b +c,d @@` form the specification describes; comparing
`make_diff_header` output against this expresses that parsing followed by
header reconstruction reproduces the numeric fields. -/
def canonicalHeader (old_start old_len new_start new_len : Nat) : String :=
  "@@ -" ++ toString old_start ++ "," ++ toString old_len ++
    " +" ++ toString new_start ++ "," ++ toString new_len ++ " @@\n"

/-- Specification-side cursor annotation: pair every hunk line with the
running new-line cursor, which starts at the given value and increments
exactly on Add/Context lines (the claim's wording). -/
def specCursorLines (start : Int) : List DiffLine → List (Int × DiffLine)
  | [] => []
  | ch :: rest =>
    let nxt :=
      if ch.operator == Operator.ADD || ch.operator == Operator.NO_CHANGE then
        start + 1
      else start
    (start, ch) :: specCursorLines nxt rest

/-- The last `n` entries of a list (the claim's "clipped to its last
context_window entries"). -/
def takeLastN (n : Nat) (l : List String) : List String :=
  l.drop (l.length - n)

/-- Specification-side partition-and-clip: lines whose cursor has not yet
passed `line_no` form the before list, the rest the after list; the
before list keeps its last `context_window` entries, the after list its
first `context_window` entries. -/
def specAlignClipped (d : Diff) (line_no : Int) (context_window : Nat) :
    List String × List String :=
  let ann := specCursorLines (d.new_start_line_idx + 1) d.changes
  (takeLastN context_window
      ((ann.takeWhile (fun p => decide (p.1 ≤ line_no))).map (fun p => renderChange p.2)),
   ((ann.dropWhile (fun p => decide (p.1 ≤ line_no))).map (fun p => renderChange p.2)).take
      context_window)

/-- Number of parsed lines whose operator is Remove or Context (the
old-side lines of a hunk). -/
def oldSideCount (chs : List DiffLine) : Nat :=
  chs.countP (fun c => c.operator == Operator.REMOVE || c.operator == Operator.NO_CHANGE)

/-- Number of parsed lines whose operator is Add or Context (the new-side
lines of a hunk). -/
def newSideCount (chs : List DiffLine) : Nat :=
  chs.countP (fun c => c.operator == Operator.ADD || c.operator == Operator.NO_CHANGE)

/-- The body lines the single-hunk parser retains: everything except
whitespace-only lines not starting with a space and the no-newline
marker (the exact skip tests of `parse_diff_str_single_hunk`). -/
def keptBodyLines : List String → List String
  | [] => []
  | l :: ls =>
    if isBlankLine l && !(l.data.head? == some ' ') then keptBodyLines ls
    else if pyStartsWith l "\\ No newline at end of file" then keptBodyLines ls
    else l :: keptBodyLines ls

/-- Number of raw lines starting with `-` or a space. -/
def rawOldCount (ls : List String) : Nat :=
  ls.countP (fun l => l.data.head? == some '-' || l.data.head? == some ' ')

/-- Number of raw lines starting with `+` or a space. -/
def rawNewCount (ls : List String) : Nat :=
  ls.countP (fun l => l.data.head? == some '+' || l.data.head? == some ' ')

/-- The specification's running example diff, as a line list. -/
def exampleDiffLines : List String :=
  ["@@ -1,2 +1,3 @@\n", " context\n", "-old\n", "+new1\n", "+new2\n"]

/-- The hunk the parser produces for `exampleDiffLines`. -/
def exampleDiff : Diff :=
  ⟨0, 0, 2, 3, [⟨.NO_CHANGE, "context\n", some 0, some 0⟩,
    ⟨.REMOVE, "old\n", some 1, none⟩, ⟨.ADD, "new1\n", none, some 1⟩,
    ⟨.ADD, "new2\n", none, some 2⟩]⟩

/-! ### Concrete workflow fixtures used by witnesses -/

/-- Concrete fixed inputs for workflow witnesses. -/
def wfInputsEx : PyDict Nat := fun k => if k = "fixed" then some 7 else none

/-- Concrete output of the first fixture step. -/
def wfOut1Ex : PyDict Nat := fun k => if k = "a" then some 1 else none

/-- Concrete output of the second fixture step. -/
def wfOut2Ex : PyDict Nat := fun k => if k = "b" then some 2 else none

/-- A fixture step that succeeds with `wfOut1Ex`. -/
def wfStep1Ex : WStep Nat String := ⟨"one", fun _ => .ok (some wfOut1Ex), .TODO⟩

/-- A fixture step that succeeds with `wfOut2Ex`. -/
def wfStep2Ex : WStep Nat String := ⟨"two", fun _ => .ok (some wfOut2Ex), .TODO⟩

/-- A fixture step that raises. -/
def wfStepFailEx : WStep Nat String := ⟨"boom", fun _ => .error "boom", .TODO⟩

/-- A fixture step that would succeed but is never reached. -/
def wfStep3Ex : WStep Nat String := ⟨"three", fun _ => .ok (some wfOut2Ex), .TODO⟩

/-! ## Theorems -/

/-- C7: in the device-flow token polling loop, a poll response carrying an
access token returns that token; `authorization_pending` sleeps the
current interval and retries; `slow_down` increases the interval by a
fixed increment within 3–5 seconds (namely 5), sleeps, and retries;
`expired_token`, `access_denied`, any other error code, and a non-200
status all terminate the loop as failures; and three
`authorization_pending` responses followed by a token sleep exactly three
times at the server-given interval and return the token on the fourth
poll. -/
theorem poll_for_token_behavior :
    (∀ (i : Nat) (rs : List PollResponse) (t : String),
        poll_for_token i (.token t :: rs) = some ([], some t)) ∧
    (∀ (i : Nat) (rs : List PollResponse),
        poll_for_token i (.authPending :: rs)
          = (poll_for_token i rs).map (fun p => (i :: p.1, p.2))) ∧
    (∃ inc : Nat, 3 ≤ inc ∧ inc ≤ 5 ∧
      ∀ (i : Nat) (rs : List PollResponse),
        poll_for_token i (.slowDown :: rs)
          = (poll_for_token (i + inc) rs).map (fun p => ((i + inc) :: p.1, p.2))) ∧
    (∀ (i c : Nat) (rs : List PollResponse),
        poll_for_token i (.badStatus c :: rs) = some ([], none)) ∧
    (∀ (i : Nat) (rs : List PollResponse),
        poll_for_token i (.expiredToken :: rs) = some ([], none)) ∧
    (∀ (i : Nat) (rs : List PollResponse),
        poll_for_token i (.accessDenied :: rs) = some ([], none)) ∧
    (∀ (i : Nat) (m : String) (rs : List PollResponse),
        poll_for_token i (.otherError m :: rs) = some ([], none)) ∧
    (∀ (i : Nat) (t : String),
        poll_for_token i [.authPending, .authPending, .authPending, .token t]
          = some ([i, i, i], some t)) := by
  refine ⟨fun i rs t => rfl, fun i rs => rfl,
    ⟨5, by omega, by omega, fun i rs => rfl⟩,
    fun i c rs => rfl, fun i rs => rfl, fun i rs => rfl, fun i m rs => rfl,
    fun i t => rfl⟩

/-- C3: evidence for the divergence between code and specification around
connection-level errors.  The retry predicate installed on
`get_check_status` and `post_check` classifies a connection-level error
(`RequestError` that is not an `HTTPStatusError`) as NOT retryable —
`should_retry_http_error` returns `False` for it — so an operation that
raises one is invoked exactly once and the error propagates immediately,
whereas the specification (and the repository's own unit tests) require
such errors to be retried. -/
theorem connection_error_not_retried :
    should_retry_http_error .requestError = false ∧
    retryPredicate .requestError = false ∧
    retriedCall (fun _ => (.error .requestError : Except PyHTTPError Unit))
      = (1, .raised .requestError) ∧
    retriedCall (fun _ => (.error (.httpStatusError 500) : Except PyHTTPError Unit))
      = (5, .retryError (.httpStatusError 500)) :=
  ⟨rfl, rfl, rfl, rfl⟩

/-- C2 counterexample: an input whose body lines begin mid-hunk with no
preceding hunk header is NOT a fatal parse error for the multi-hunk
parser: the headerless line is silently skipped and the empty hunk list is
returned. -/
theorem multi_hunk_headerless_silently_skipped :
    parse_diff_str_multi_hunk ["+foo\n"] = .ok [] ∧
    ∀ e, parse_diff_str_multi_hunk ["+foo\n"] ≠ .error e := by
  refine ⟨rfl, ?_⟩
  intro e h
  rw [show parse_diff_str_multi_hunk ["+foo\n"] = .ok [] from rfl] at h
  exact Except.noConfusion h

/-- Helper: a line list with no hunk-header line produces no chunks. -/
theorem multiHunkChunks_no_header (ls : List String)
    (h : ∀ l ∈ ls, matchDiffHeader l.data = none) :
    multiHunkChunks [] [] ls = [] := by
  induction ls with
  | nil => rfl
  | cons l ls ih =>
    have hl := h l (List.mem_cons_self l ls)
    rw [multiHunkChunks, hl]
    simpa using ih (fun x hx => h x (List.mem_cons_of_mem l hx))

/-- Helper: a line list with no hunk-header line has no header to find. -/
theorem findHeader_none (ls : List String)
    (h : ∀ l ∈ ls, matchDiffHeader l.data = none) :
    findHeader ls = none := by
  induction ls with
  | nil => rfl
  | cons l ls ih =>
    rw [findHeader, h l (List.mem_cons_self l ls)]
    exact ih (fun x hx => h x (List.mem_cons_of_mem l hx))

/-- C2 (amended): an input containing zero hunk headers makes the
multi-hunk parser yield the empty hunk sequence (not an error) even when
headerless body lines are present — they are silently skipped; it is the
single-hunk parser that treats a missing hunk header as a fatal parse
error (`ValueError: Invalid diff format`). -/
theorem headerless_input_behavior (lines : List String)
    (h : ∀ l ∈ lines, matchDiffHeader l.data = none) :
    parse_diff_str_multi_hunk lines = .ok [] ∧
    parse_diff_str_single_hunk lines = .error "Invalid diff format" := by
  constructor
  · have hclean : ∀ l ∈ cleanDiffLines lines, matchDiffHeader l.data = none :=
      fun l hl => h l (List.mem_of_mem_filter hl)
    rw [parse_diff_str_multi_hunk, multiHunkChunks_no_header _ hclean]
    rfl
  · rw [parse_diff_str_single_hunk, findHeader_none _ h]

/-- C2 witness: the amended behavior at the concrete headerless input
consisting of the single body line `+foo`. -/
theorem headerless_input_behavior_witness :
    parse_diff_str_multi_hunk ["+foo\n", " bar\n"] = .ok [] ∧
    parse_diff_str_single_hunk ["+foo\n", " bar\n"] = .error "Invalid diff format" :=
  headerless_input_behavior ["+foo\n", " bar\n"] (by decide)

/-- C9: for every well-formed single-hunk diff text (one the parser
accepts), reconstructing the hunk header via `make_diff_header` from the
returned hunk reproduces the original header's numeric fields exactly:
the rebuilt header is the canonical rendering of the matched header's old
start, old length, new start and new length, an omitted length reading
as 1. -/
theorem parse_header_roundtrip (lines rest : List String) (d : Diff)
    (os : Nat) (ol : Option Nat) (ns : Nat) (nl : Option Nat)
    (hfind : findHeader lines = some ((os, ol, ns, nl), rest))
    (hparse : parse_diff_str_single_hunk lines = .ok d) :
    make_diff_header d = canonicalHeader os (ol.getD 1) ns (nl.getD 1) := by
  rw [parse_diff_str_single_hunk, hfind] at hparse
  dsimp only at hparse
  cases hbody : parseBodyLines ((os : Int) - 1) ((ns : Int) - 1) rest with
  | error e =>
    rw [hbody] at hparse
    exact absurd hparse (by simp [Except.map])
  | ok chs =>
    rw [hbody] at hparse
    simp only [Except.map, Except.ok.injEq] at hparse
    subst hparse
    show "@@ -" ++ toString ((os : Int) - 1 + 1) ++ "," ++ toString (ol.getD 1) ++
      " +" ++ toString ((ns : Int) - 1 + 1) ++ "," ++ toString (nl.getD 1) ++ " @@\n" = _
    rw [Int.sub_add_cancel, Int.sub_add_cancel]
    rfl

/-- C9 witness: the round trip at the concrete single-hunk diff
`@@ -2,3 +4 @@` (new-side length omitted, reading as 1). -/
theorem parse_header_roundtrip_witness :
    make_diff_header ⟨1, 3, 3, 1, [⟨.NO_CHANGE, "a\n", some 1, some 3⟩]⟩
      = canonicalHeader 2 3 4 1 :=
  parse_header_roundtrip ["@@ -2,3 +4 @@\n", " a\n"] [" a\n"]
    ⟨1, 3, 3, 1, [⟨.NO_CHANGE, "a\n", some 1, some 3⟩]⟩ 2 (some 3) 4 none rfl rfl

/-- Helper: the body loop turns each retained raw line into exactly one
`DiffLine` whose operator is the line's first character, so the old-side
and new-side counts of the parsed lines equal the corresponding counts
over the retained raw body lines. -/
theorem parseBodyLines_counts (ls : List String) :
    ∀ (o n : Int) (chs : List DiffLine), parseBodyLines o n ls = .ok chs →
      oldSideCount chs = rawOldCount (keptBodyLines ls) ∧
      newSideCount chs = rawNewCount (keptBodyLines ls) := by
  induction ls with
  | nil =>
    intro o n chs h
    rw [parseBodyLines] at h
    cases h
    exact ⟨rfl, rfl⟩
  | cons l ls ih =>
    intro o n chs h
    rw [parseBodyLines] at h
    split at h
    · rename_i hblank
      have hskip : keptBodyLines (l :: ls) = keptBodyLines ls := by
        rw [keptBodyLines, if_pos hblank]
      rw [hskip]
      exact ih _ _ _ h
    · rename_i hblank
      split at h
      · rename_i hmark
        have hskip : keptBodyLines (l :: ls) = keptBodyLines ls := by
          rw [keptBodyLines, if_neg hblank, if_pos hmark]
        rw [hskip]
        exact ih _ _ _ h
      · rename_i hmark
        have hkept : keptBodyLines (l :: ls) = l :: keptBodyLines ls := by
          rw [keptBodyLines, if_neg hblank, if_neg hmark]
        revert h
        cases hdata : l.data with
        | nil =>
          intro h
          exact absurd h (by simp)
        | cons c rest =>
          intro h
          dsimp only at h
          split at h
          · rename_i hc
            subst hc
            cases hrec : parseBodyLines o (n + 1) ls with
            | error e => rw [hrec] at h; exact absurd h (by simp [Except.map])
            | ok ds =>
              rw [hrec] at h
              simp only [Except.map, Except.ok.injEq] at h
              subst h
              obtain ⟨h1, h2⟩ := ih _ _ _ hrec
              constructor
              · simpa [oldSideCount, rawOldCount, hkept, List.countP_cons, hdata] using h1
              · simpa [newSideCount, rawNewCount, hkept, List.countP_cons, hdata] using h2
          · split at h
            · rename_i hc
              subst hc
              cases hrec : parseBodyLines (o + 1) n ls with
              | error e => rw [hrec] at h; exact absurd h (by simp [Except.map])
              | ok ds =>
                rw [hrec] at h
                simp only [Except.map, Except.ok.injEq] at h
                subst h
                obtain ⟨h1, h2⟩ := ih _ _ _ hrec
                constructor
                · simpa [oldSideCount, rawOldCount, hkept, List.countP_cons, hdata] using h1
                · simpa [newSideCount, rawNewCount, hkept, List.countP_cons, hdata] using h2
            · split at h
              · rename_i hc
                subst hc
                cases hrec : parseBodyLines (o + 1) (n + 1) ls with
                | error e => rw [hrec] at h; exact absurd h (by simp [Except.map])
                | ok ds =>
                  rw [hrec] at h
                  simp only [Except.map, Except.ok.injEq] at h
                  subst h
                  obtain ⟨h1, h2⟩ := ih _ _ _ hrec
                  constructor
                  · simpa [oldSideCount, rawOldCount, hkept, List.countP_cons, hdata] using h1
                  · simpa [newSideCount, rawNewCount, hkept, List.countP_cons, hdata] using h2
              · exact absurd h (by simp)

/-- C8 counterexample: the parser copies the header's lengths into the
hunk without validating them against the body, so a header announcing
lengths 5 with an empty body yields a hunk whose Remove/Context and
Add/Context line counts (both 0) differ from `old_len` and `new_len`. -/
theorem hunk_len_unchecked :
    parse_diff_str_single_hunk ["@@ -1,5 +1,5 @@\n"] = .ok ⟨0, 0, 5, 5, []⟩ ∧
    oldSideCount ([] : List DiffLine) ≠ 5 ∧
    newSideCount ([] : List DiffLine) ≠ 5 :=
  ⟨rfl, by decide, by decide⟩

/-- C8 (amended): for every hunk returned by the single-hunk parser from
an input whose retained body lines contain exactly `old_len` lines
starting with `-` or a space and exactly `new_len` lines starting with
`+` or a space, the number of parsed lines with operator Remove or
Context equals `old_len` and the number with Add or Context equals
`new_len`. -/
theorem hunk_line_counts (lines rest : List String)
    (hdr : Nat × Option Nat × Nat × Option Nat) (d : Diff)
    (hfind : findHeader lines = some (hdr, rest))
    (hparse : parse_diff_str_single_hunk lines = .ok d)
    (hold : rawOldCount (keptBodyLines rest) = d.old_len)
    (hnew : rawNewCount (keptBodyLines rest) = d.new_len) :
    oldSideCount d.changes = d.old_len ∧ newSideCount d.changes = d.new_len := by
  obtain ⟨os, ol, ns, nl⟩ := hdr
  rw [parse_diff_str_single_hunk, hfind] at hparse
  dsimp only at hparse
  cases hbody : parseBodyLines ((os : Int) - 1) ((ns : Int) - 1) rest with
  | error e =>
    rw [hbody] at hparse
    exact absurd hparse (by simp [Except.map])
  | ok chs =>
    rw [hbody] at hparse
    simp only [Except.map, Except.ok.injEq] at hparse
    subst hparse
    obtain ⟨h1, h2⟩ := parseBodyLines_counts rest _ _ _ hbody
    exact ⟨h1.trans hold, h2.trans hnew⟩

/-- C8 witness: the count identity at the concrete hunk
`@@ -1,2 +1,3 @@` with body ` context` / `-old` / `+new1` / `+new2`. -/
theorem hunk_line_counts_witness :
    oldSideCount [⟨.NO_CHANGE, "context\n", some 0, some 0⟩,
        ⟨.REMOVE, "old\n", some 1, none⟩, ⟨.ADD, "new1\n", none, some 1⟩,
        ⟨.ADD, "new2\n", none, some 2⟩] = 2 ∧
    newSideCount [⟨.NO_CHANGE, "context\n", some 0, some 0⟩,
        ⟨.REMOVE, "old\n", some 1, none⟩, ⟨.ADD, "new1\n", none, some 1⟩,
        ⟨.ADD, "new2\n", none, some 2⟩] = 3 :=
  hunk_line_counts
    ["@@ -1,2 +1,3 @@\n", " context\n", "-old\n", "+new1\n", "+new2\n"]
    [" context\n", "-old\n", "+new1\n", "+new2\n"] (1, some 2, 1, some 3)
    ⟨0, 0, 2, 3, [⟨.NO_CHANGE, "context\n", some 0, some 0⟩,
      ⟨.REMOVE, "old\n", some 1, none⟩, ⟨.ADD, "new1\n", none, some 1⟩,
      ⟨.ADD, "new2\n", none, some 2⟩]⟩ rfl rfl (by decide) (by decide)

/-- C4: the aligner selects exactly the hunks whose half-open new-side
range `[new_start_index + 1, new_start_index + 1 + new_len)` contains the
comment's line number; when zero hunks match, `create_comment_diff`
returns the empty elements list (a recoverable condition — rendering
proceeds without a diff excerpt), and when more than one matches it fails
with the fatal `AssertionError`. -/
theorem comment_hunk_selection (diff_lines : List String) (parsed : List Diff)
    (line_no : Int) (cw : Nat)
    (hp : parse_diff_str_multi_hunk diff_lines = .ok parsed) :
    (∀ d, d ∈ diffsWithComment parsed line_no ↔
      d ∈ parsed ∧ d.new_start_line_idx + 1 ≤ line_no ∧
        line_no < d.new_start_line_idx + 1 + (d.new_len : Int)) ∧
    ((diffsWithComment parsed line_no).length = 0 →
      create_comment_diff diff_lines line_no cw = .ok []) ∧
    ((diffsWithComment parsed line_no).length > 1 →
      create_comment_diff diff_lines line_no cw =
        .error "Found multiple diffs containing the same lines, this should not happen") := by
  refine ⟨?_, ?_, ?_⟩
  · intro d
    simp [diffsWithComment, List.mem_filter]
  · intro h0
    rw [create_comment_diff, hp]
    dsimp only
    rw [if_pos h0]
  · intro h1
    rw [create_comment_diff, hp]
    dsimp only
    rw [if_neg (by omega), if_pos h1]

/-- C4 witness: the selection rule at a concrete two-hunk diff and a
comment line inside the second hunk (and, for the zero-match branch, a
line outside both). -/
theorem comment_hunk_selection_witness :
    ((diffsWithComment [⟨0, 0, 2, 3, [⟨.NO_CHANGE, "context\n", some 0, some 0⟩,
        ⟨.REMOVE, "old\n", some 1, none⟩, ⟨.ADD, "new1\n", none, some 1⟩,
        ⟨.ADD, "new2\n", none, some 2⟩]⟩] 10).length = 0 →
      create_comment_diff
        ["@@ -1,2 +1,3 @@\n", " context\n", "-old\n", "+new1\n", "+new2\n"] 10 3
        = .ok []) ∧
    create_comment_diff
      ["@@ -1,2 +1,3 @@\n", " context\n", "-old\n", "+new1\n", "+new2\n"] 10 3
      = .ok [] := by
  have h := comment_hunk_selection
    ["@@ -1,2 +1,3 @@\n", " context\n", "-old\n", "+new1\n", "+new2\n"]
    [⟨0, 0, 2, 3, [⟨.NO_CHANGE, "context\n", some 0, some 0⟩,
      ⟨.REMOVE, "old\n", some 1, none⟩, ⟨.ADD, "new1\n", none, some 1⟩,
      ⟨.ADD, "new2\n", none, some 2⟩]⟩] 10 3 rfl
  exact ⟨h.2.1, h.2.1 (by decide)⟩

/-- Helper: a run in which every step succeeded reports `DONE` for every
step. -/
theorem runSteps_ok_states {α ε : Type} (inputs : PyDict α) (xs : List (WStep α ε)) :
    ∀ (acc : PyDict α) (sts : List StepState) (p : PyDict α),
      runSteps inputs acc xs = (sts, .ok p) → sts = List.replicate xs.length .DONE := by
  induction xs with
  | nil =>
    intro acc sts p h
    rw [runSteps] at h
    cases h
    rfl
  | cons s rest ih =>
    intro acc sts p h
    rw [runSteps] at h
    cases hf : s.func (dictMerge acc inputs) with
    | ok r =>
      rw [hf] at h
      dsimp only at h
      cases hq : runSteps inputs (r.getD emptyDict) rest with
      | mk qs qr =>
        rw [hq] at h
        simp only [Prod.mk.injEq] at h
        obtain ⟨h1, h2⟩ := h
        subst h1 h2
        rw [List.length_cons, List.replicate_succ, ih _ _ _ hq]
    | error e =>
      rw [hf] at h
      simp only [Prod.mk.injEq] at h
      exact absurd h.2 (by simp)

/-- Helper: running a concatenation whose first part fully succeeds runs
the second part from the first part's final accumulator. -/
theorem runSteps_append_ok {α ε : Type} (inputs : PyDict α)
    (xs ys : List (WStep α ε)) :
    ∀ (acc : PyDict α) (sts : List StepState) (p : PyDict α),
      runSteps inputs acc xs = (sts, .ok p) →
      runSteps inputs acc (xs ++ ys)
        = (sts ++ (runSteps inputs p ys).1, (runSteps inputs p ys).2) := by
  induction xs with
  | nil =>
    intro acc sts p h
    rw [runSteps] at h
    cases h
    simp
  | cons s rest ih =>
    intro acc sts p h
    rw [runSteps] at h
    rw [List.cons_append, runSteps]
    cases hf : s.func (dictMerge acc inputs) with
    | ok r =>
      rw [hf] at h
      dsimp only at h
      cases hq : runSteps inputs (r.getD emptyDict) rest with
      | mk qs qr =>
        rw [hq] at h
        simp only [Prod.mk.injEq] at h
        obtain ⟨h1, h2⟩ := h
        subst h1
        dsimp only
        rw [ih _ _ _ (by rw [hq, h2])]
        simp
    | error e =>
      rw [hf] at h
      simp only [Prod.mk.injEq] at h
      exact absurd h.2 (by simp)

/-- Helper: a markdown-mode run never touches a step state — it returns
every step's pre-run state — while computing exactly the same outcome
(propagated error or final accumulator) as the rich-mode loop, whose
per-step merge/replace/re-raise logic it shares. -/
theorem runStepsMarkdown_spec {α ε : Type} (inputs : PyDict α)
    (xs : List (WStep α ε)) :
    ∀ acc : PyDict α,
      runStepsMarkdown inputs acc xs
        = (xs.map (fun t => t.state), (runSteps inputs acc xs).2) := by
  induction xs with
  | nil => intro acc; rfl
  | cons s rest ih =>
    intro acc
    rw [runStepsMarkdown, runSteps]
    cases hf : s.func (dictMerge acc inputs) with
    | ok r =>
      dsimp only
      rw [ih]
      rfl
    | error e => rfl

/-- C1 counterexample: `Workflow._run_markdown_mode` never calls
`set_state` (`src/rml/ui.py:132-150`), so a markdown-mode run whose
second step raises leaves every step — the succeeded first step and the
failing second step included — in its initial `TODO` state rather than
`Done`/`Failed`, even though the original error is still propagated. -/
theorem workflow_markdown_states_counterexample :
    workflow_run_markdown [wfStep1Ex, wfStepFailEx, wfStep3Ex] wfInputsEx
      = ([.TODO, .TODO, .TODO], .error "boom") ∧
    ([.TODO, .TODO, .TODO] : List StepState) ≠ [.DONE, .FAIL, .TODO] :=
  ⟨rfl, by decide⟩

/-- C1 (amended): when a step's function raises, both workflow modes
raise that step's original exception unmodified and never invoke the
later steps (the run is independent of their functions).  In rich mode
every step before the failing one ends `DONE`, the failing step ends
`FAIL`, and every later step keeps its initial `TODO` state (the
specification's initial "Pending"); in markdown mode no step state is
updated at all — every step, the succeeded and failing ones included, is
left in its pre-run state. -/
theorem workflow_failfast {α ε : Type} (pre post : List (WStep α ε)) (s : WStep α ε)
    (inputs prev : PyDict α) (sts : List StepState) (e : ε)
    (hpre : runSteps inputs emptyDict pre = (sts, .ok prev))
    (hfail : s.func (dictMerge prev inputs) = .error e)
    (hinit : ∀ t ∈ post, t.state = .TODO) :
    (workflow_run (pre ++ s :: post) inputs
      = (List.replicate pre.length .DONE ++ .FAIL :: List.replicate post.length .TODO,
         .error e)) ∧
    (∀ post' : List (WStep α ε),
      post'.map (fun t => t.state) = post.map (fun t => t.state) →
      workflow_run (pre ++ s :: post') inputs
        = workflow_run (pre ++ s :: post) inputs) ∧
    (workflow_run_markdown (pre ++ s :: post) inputs
      = ((pre ++ s :: post).map (fun t => t.state), .error e)) ∧
    (∀ post' : List (WStep α ε),
      post'.map (fun t => t.state) = post.map (fun t => t.state) →
      workflow_run_markdown (pre ++ s :: post') inputs
        = workflow_run_markdown (pre ++ s :: post) inputs) := by
  have hsts := runSteps_ok_states inputs pre emptyDict sts prev hpre
  have hmap : post.map (fun t => t.state) = List.replicate post.length .TODO := by
    have hall : ∀ b ∈ post.map (fun t => t.state), b = StepState.TODO := by
      intro b hb
      obtain ⟨t, ht, rfl⟩ := List.mem_map.mp hb
      exact hinit t ht
    rw [List.eq_replicate_of_mem hall, List.length_map]
  have hmid : ∀ ps : List (WStep α ε), runSteps inputs prev (s :: ps)
      = (.FAIL :: ps.map (fun t => t.state), .error e) := by
    intro ps
    rw [runSteps, hfail]
  have hrich : workflow_run (pre ++ s :: post) inputs
      = (List.replicate pre.length .DONE ++ .FAIL :: List.replicate post.length .TODO,
         .error e) := by
    rw [workflow_run, runSteps_append_ok inputs pre (s :: post) emptyDict sts prev hpre,
      hmid, hsts, hmap]
  have hrichind : ∀ post' : List (WStep α ε),
      post'.map (fun t => t.state) = post.map (fun t => t.state) →
      workflow_run (pre ++ s :: post') inputs
        = workflow_run (pre ++ s :: post) inputs := by
    intro post' hstates
    rw [workflow_run, workflow_run,
      runSteps_append_ok inputs pre (s :: post) emptyDict sts prev hpre,
      runSteps_append_ok inputs pre (s :: post') emptyDict sts prev hpre,
      hmid, hmid, hstates]
  have hsnd : (runSteps inputs emptyDict (pre ++ s :: post)).2 = .error e :=
    congrArg Prod.snd hrich
  refine ⟨hrich, hrichind, ?_, ?_⟩
  · rw [workflow_run_markdown,
      runStepsMarkdown_spec inputs (pre ++ s :: post) emptyDict, hsnd]
  · intro post' hstates
    have h2 : (runSteps inputs emptyDict (pre ++ s :: post')).2
        = (runSteps inputs emptyDict (pre ++ s :: post)).2 :=
      congrArg Prod.snd (hrichind post' hstates)
    rw [workflow_run_markdown, workflow_run_markdown,
      runStepsMarkdown_spec inputs (pre ++ s :: post') emptyDict,
      runStepsMarkdown_spec inputs (pre ++ s :: post) emptyDict,
      h2, List.map_append, List.map_append, List.map_cons, List.map_cons, hstates]

/-- C1 witness: the specification's three-step scenario — step 1
succeeds, step 2 raises `"boom"`, step 3 is never run.  In rich mode the
final states are `[DONE, FAIL, TODO]`; in markdown mode no state is
touched and all three remain `TODO`; both modes propagate the original
error. -/
theorem workflow_failfast_witness :
    workflow_run [wfStep1Ex, wfStepFailEx, wfStep3Ex] wfInputsEx
      = ([.DONE, .FAIL, .TODO], .error "boom") ∧
    workflow_run_markdown [wfStep1Ex, wfStepFailEx, wfStep3Ex] wfInputsEx
      = ([.TODO, .TODO, .TODO], .error "boom") := by
  have h := workflow_failfast [wfStep1Ex] [wfStep3Ex] wfStepFailEx wfInputsEx
    wfOut1Ex [.DONE] "boom" rfl rfl
    (by intro t ht; rw [List.mem_singleton] at ht; subst ht; rfl)
  exact ⟨h.1, h.2.2.1⟩

/-- C6: in a workflow run in which every step succeeds, each step's
function is invoked with `{**accumulated, **fixed_inputs}` — a
fixed-input entry overriding an accumulated entry on key collision — and
after each success the accumulated map is fully replaced by that step's
output, so a key emitted by an earlier step and not re-emitted by the
immediate predecessor is invisible to the next step; the run returns the
last step's output, and the last step's behavior depends only on its
function's value at the merged kwargs. -/
theorem workflow_success_merge {α ε : Type} (pre : List (WStep α ε)) (s1 s2 : WStep α ε)
    (inputs prev out1 out2 : PyDict α) (sts : List StepState)
    (hpre : runSteps inputs emptyDict pre = (sts, .ok prev))
    (h1 : s1.func (dictMerge prev inputs) = .ok (some out1))
    (h2 : s2.func (dictMerge out1 inputs) = .ok (some out2)) :
    workflow_run (pre ++ [s1, s2]) inputs
      = (List.replicate (pre.length + 2) .DONE, .ok out2) ∧
    (∀ k v, inputs k = some v → dictMerge out1 inputs k = some v) ∧
    (∀ k, inputs k = none → dictMerge out1 inputs k = out1 k) ∧
    (∀ k, inputs k = none → out1 k = none → dictMerge out1 inputs k = none) ∧
    ∀ g : PyDict α → Except ε (Option (PyDict α)),
      g (dictMerge out1 inputs) = .ok (some out2) →
      workflow_run (pre ++ [s1, WStep.mk s2.name g s2.state]) inputs
        = workflow_run (pre ++ [s1, s2]) inputs := by
  have hsts := runSteps_ok_states inputs pre emptyDict sts prev hpre
  have htail : runSteps inputs prev [s1, s2] = ([.DONE, .DONE], .ok out2) := by
    rw [runSteps, h1]
    dsimp only
    simp only [Option.getD_some]
    rw [runSteps, h2]
    dsimp only
    rw [runSteps]
    rfl
  refine ⟨?_, ?_, ?_, ?_, ?_⟩
  · rw [workflow_run, runSteps_append_ok inputs pre [s1, s2] emptyDict sts prev hpre,
      htail, hsts, List.replicate_add]
    rfl
  · intro k v hk
    simp [dictMerge, hk, Option.orElse]
  · intro k hk
    simp [dictMerge, hk, Option.orElse]
  · intro k hk h1k
    simp [dictMerge, hk, h1k, Option.orElse]
  · intro g hg
    have htail' : runSteps inputs prev [s1, WStep.mk s2.name g s2.state]
        = ([.DONE, .DONE], .ok out2) := by
      rw [runSteps, h1]
      dsimp only
      simp only [Option.getD_some]
      rw [runSteps]
      dsimp only
      rw [hg]
      dsimp only
      rw [runSteps]
      rfl
    rw [workflow_run, workflow_run,
      runSteps_append_ok inputs pre [s1, s2] emptyDict sts prev hpre,
      runSteps_append_ok inputs pre [s1, WStep.mk s2.name g s2.state] emptyDict sts
        prev hpre,
      htail, htail']

/-- C6 witness: a concrete two-step all-success run returns the second
step's output with both steps `DONE`, and the fixed input `"fixed"`
overrides on merge. -/
theorem workflow_success_merge_witness :
    workflow_run [wfStep1Ex, wfStep2Ex] wfInputsEx
      = (List.replicate 2 .DONE, .ok wfOut2Ex) ∧
    dictMerge wfOut1Ex wfInputsEx "fixed" = some 7 := by
  have h := workflow_success_merge [] wfStep1Ex wfStep2Ex wfInputsEx emptyDict
    wfOut1Ex wfOut2Ex [] rfl rfl rfl
  exact ⟨h.1, h.2.1 "fixed" 7 rfl⟩

/-- Helper: the cursor annotation does not change the rendered lines. -/
theorem specCursorLines_map_render (chs : List DiffLine) :
    ∀ start : Int,
      (specCursorLines start chs).map (fun p => renderChange p.2)
        = chs.map renderChange := by
  induction chs with
  | nil => intro start; rfl
  | cons ch rest ih =>
    intro start
    rw [specCursorLines]
    dsimp only [List.map_cons]
    rw [ih]

/-- Helper: every annotated cursor is at least the starting cursor. -/
theorem specCursorLines_ge (chs : List DiffLine) :
    ∀ (start : Int), ∀ p ∈ specCursorLines start chs, start ≤ p.1 := by
  induction chs with
  | nil => intro start p hp; exact absurd hp (List.not_mem_nil p)
  | cons ch rest ih =>
    intro start p hp
    rw [specCursorLines] at hp
    rcases List.mem_cons.mp hp with h | h
    · subst h; exact le_refl start
    · by_cases hc : (ch.operator == Operator.ADD || ch.operator == Operator.NO_CHANGE) = true
      · rw [if_pos hc] at h
        exact le_trans (by omega) (ih (start + 1) p h)
      · rw [if_neg hc] at h
        exact ih start p h

/-- Helper: annotated cursors are nondecreasing along the hunk. -/
theorem specCursorLines_pairwise (chs : List DiffLine) :
    ∀ start : Int,
      List.Pairwise (fun a b : Int × DiffLine => a.1 ≤ b.1)
        (specCursorLines start chs) := by
  induction chs with
  | nil => intro start; exact List.Pairwise.nil
  | cons ch rest ih =>
    intro start
    rw [specCursorLines]
    refine List.pairwise_cons.mpr ⟨?_, ?_⟩
    · intro p hp
      by_cases hc : (ch.operator == Operator.ADD || ch.operator == Operator.NO_CHANGE) = true
      · rw [if_pos hc] at hp
        exact le_trans (by omega) (specCursorLines_ge rest (start + 1) p hp)
      · rw [if_neg hc] at hp
        exact specCursorLines_ge rest start p hp
    · by_cases hc : (ch.operator == Operator.ADD || ch.operator == Operator.NO_CHANGE) = true
      · rw [if_pos hc]; exact ih (start + 1)
      · rw [if_neg hc]; exact ih start

/-- Helper: a suffix of the annotation starting right after a decomposed
element is itself an annotation of some suffix of the hunk, started at
that element's successor cursor. -/
theorem specCursorLines_decomp (chs : List DiffLine) :
    ∀ (start : Int) (xs ys : List (Int × DiffLine)) (c : Int) (h : DiffLine),
      specCursorLines start chs = xs ++ (c, h) :: ys →
      ∃ rest' : List DiffLine,
        ys = specCursorLines
          (if h.operator == Operator.ADD || h.operator == Operator.NO_CHANGE then
            c + 1 else c) rest' := by
  induction chs with
  | nil =>
    intro start xs ys c h heq
    exact absurd heq (by simp [specCursorLines])
  | cons ch rest ih =>
    intro start xs ys c h heq
    rw [specCursorLines] at heq
    cases xs with
    | nil =>
      simp only [List.nil_append, List.cons.injEq, Prod.mk.injEq] at heq
      obtain ⟨⟨hc, hh⟩, hys⟩ := heq
      subst hc hh hys
      exact ⟨rest, rfl⟩
    | cons x xs' =>
      simp only [List.cons_append, List.cons.injEq] at heq
      exact ih _ xs' ys c h heq.2

/-- Helper: membership in the annotation projects to membership in the
hunk's lines. -/
theorem specCursorLines_mem (chs : List DiffLine) :
    ∀ (start : Int), ∀ p ∈ specCursorLines start chs, p.2 ∈ chs := by
  induction chs with
  | nil => intro start p hp; exact absurd hp (List.not_mem_nil p)
  | cons ch rest ih =>
    intro start p hp
    rw [specCursorLines] at hp
    rcases List.mem_cons.mp hp with h | h
    · subst h; exact List.mem_cons_self ch rest
    · by_cases hc : (ch.operator == Operator.ADD || ch.operator == Operator.NO_CHANGE) = true
      · rw [if_pos hc] at h
        exact List.mem_cons_of_mem ch (ih (start + 1) p h)
      · rw [if_neg hc] at h
        exact List.mem_cons_of_mem ch (ih start p h)

/-- Helper: once the cursor has passed the comment line, every remaining
line lands in the after list. -/
theorem partitionChanges_all_after (line_no : Int) (chs : List DiffLine) :
    ∀ start : Int, line_no < start →
      partitionChanges line_no start chs = ([], chs.map renderChange) := by
  induction chs with
  | nil => intro start _; rfl
  | cons ch rest ih =>
    intro start hlt
    rw [partitionChanges]
    rw [if_neg (by omega)]
    have hnxt : line_no < (if ch.new_line_idx.isSome then start + 1 else start) := by
      by_cases hc : ch.new_line_idx.isSome = true
      · rw [if_pos hc]; omega
      · rw [if_neg hc]; omega
    rw [ih _ hnxt]
    rfl

/-- Helper: `takeWhile` passes over a prefix that satisfies the
predicate. -/
theorem takeWhile_append_of_all {α : Type} (p : α → Bool) (bs : List α) :
    ∀ as : List α, (∀ a ∈ as, p a = true) →
      (as ++ bs).takeWhile p = as ++ bs.takeWhile p := by
  intro as
  induction as with
  | nil => intro _; rfl
  | cons a as' ih =>
    intro h
    rw [List.cons_append, List.takeWhile_cons, if_pos (h a (List.mem_cons_self a as')),
      ih (fun x hx => h x (List.mem_cons_of_mem a hx))]
    rfl

/-- Helper: `takeWhile` is empty on a list whose every element fails the
predicate. -/
theorem takeWhile_eq_nil_of_all {α : Type} (p : α → Bool) (as : List α)
    (h : ∀ a ∈ as, p a = false) : as.takeWhile p = [] := by
  cases as with
  | nil => rfl
  | cons a as' =>
    rw [List.takeWhile_cons, if_neg (by rw [h a (List.mem_cons_self a as')]; simp)]

/-- Helper: the partition loop of `create_comment_diff` computes exactly
the span of the cursor-annotated lines at the predicate
`cursor ≤ line_no`, provided each line's `new_line_idx` presence agrees
with its operator being Add/Context (which holds for parsed hunks). -/
theorem partitionChanges_eq_span (line_no : Int) (chs : List DiffLine)
    (hop : ∀ c ∈ chs,
      c.new_line_idx.isSome = (c.operator == Operator.ADD || c.operator == Operator.NO_CHANGE)) :
    ∀ start : Int,
      partitionChanges line_no start chs
        = (((specCursorLines start chs).takeWhile
              (fun p => decide (p.1 ≤ line_no))).map (fun p => renderChange p.2),
           ((specCursorLines start chs).dropWhile
              (fun p => decide (p.1 ≤ line_no))).map (fun p => renderChange p.2)) := by
  induction chs with
  | nil => intro start; rfl
  | cons ch rest ih =>
    intro start
    have hch := hop ch (List.mem_cons_self ch rest)
    have hrest : ∀ c ∈ rest,
        c.new_line_idx.isSome = (c.operator == Operator.ADD || c.operator == Operator.NO_CHANGE) :=
      fun c hc => hop c (List.mem_cons_of_mem ch hc)
    rw [partitionChanges, specCursorLines]
    rw [hch]
    by_cases hle : start ≤ line_no
    · rw [if_pos hle]
      simp only [List.takeWhile_cons, List.dropWhile_cons, decide_eq_true_eq]
      rw [if_pos hle]
      rw [if_pos hle]
      dsimp only [List.map_cons]
      rw [ih hrest]
    · rw [if_neg hle]
      simp only [List.takeWhile_cons, List.dropWhile_cons, decide_eq_true_eq]
      rw [if_neg hle]
      have hnxt : line_no <
          (if (ch.operator == Operator.ADD || ch.operator == Operator.NO_CHANGE) = true
            then start + 1 else start) := by
        split <;> omega
      rw [if_neg hle]
      rw [partitionChanges_all_after line_no rest _ hnxt]
      dsimp only [List.map_cons, List.map_nil]
      rw [specCursorLines_map_render]

/-- Helper: the guarded Python slice `[-cw:]` of `create_comment_diff`
agrees with taking the last `cw` entries once `cw ≥ 1`. -/
theorem pySliceLastNeg_guard (cw : Nat) (hcw : 1 ≤ cw) (l : List String) :
    (if l.length > 0 then pySliceLastNeg cw l else []) = takeLastN cw l := by
  cases l with
  | nil => simp [takeLastN]
  | cons a l' =>
    rw [if_pos (by simp), pySliceLastNeg, if_neg (by omega)]
    rfl

/-- Helper: the guarded `[:cw]` slice is a plain `take`. -/
theorem take_guard (cw : Nat) (l : List String) :
    (if l.length > 0 then l.take cw else []) = l.take cw := by
  cases l with
  | nil => simp
  | cons a l' => rw [if_pos (by simp)]

/-- Helper: taking the last `cw ≥ 1` entries of a list ending in `a`
still ends in `a`. -/
theorem getLast?_takeLastN_concat (cw : Nat) (hcw : 1 ≤ cw) (l : List String)
    (a : String) : (takeLastN cw (l ++ [a])).getLast? = some a := by
  rw [takeLastN]
  have hk : (l ++ [a]).length - cw ≤ l.length := by simp; omega
  rw [List.drop_append_of_le_length hk]
  exact List.getLast?_concat _

/-- Helper: every `DiffLine` produced by the body loop carries a
`new_line_idx` exactly when its operator is Add or Context. -/
theorem parseBodyLines_newidx (ls : List String) :
    ∀ (o n : Int) (chs : List DiffLine), parseBodyLines o n ls = .ok chs →
      ∀ c ∈ chs, c.new_line_idx.isSome
        = (c.operator == Operator.ADD || c.operator == Operator.NO_CHANGE) := by
  induction ls with
  | nil =>
    intro o n chs h
    rw [parseBodyLines] at h
    cases h
    intro c hc
    exact absurd hc (List.not_mem_nil c)
  | cons l ls ih =>
    intro o n chs h
    rw [parseBodyLines] at h
    split at h
    · exact ih _ _ _ h
    · split at h
      · exact ih _ _ _ h
      · split at h
        · exact absurd h (by simp)
        · split at h
          · cases hrec : parseBodyLines o (n + 1) ls with
            | error e => rw [hrec] at h; exact absurd h (by simp [Except.map])
            | ok ds =>
              rw [hrec] at h
              simp only [Except.map, Except.ok.injEq] at h
              subst h
              intro c hc
              rcases List.mem_cons.mp hc with rfl | hmem
              · rfl
              · exact ih _ _ _ hrec c hmem
          · split at h
            · cases hrec : parseBodyLines (o + 1) n ls with
              | error e => rw [hrec] at h; exact absurd h (by simp [Except.map])
              | ok ds =>
                rw [hrec] at h
                simp only [Except.map, Except.ok.injEq] at h
                subst h
                intro c hc
                rcases List.mem_cons.mp hc with rfl | hmem
                · rfl
                · exact ih _ _ _ hrec c hmem
            · split at h
              · cases hrec : parseBodyLines (o + 1) (n + 1) ls with
                | error e => rw [hrec] at h; exact absurd h (by simp [Except.map])
                | ok ds =>
                  rw [hrec] at h
                  simp only [Except.map, Except.ok.injEq] at h
                  subst h
                  intro c hc
                  rcases List.mem_cons.mp hc with rfl | hmem
                  · rfl
                  · exact ih _ _ _ hrec c hmem
              · exact absurd h (by simp)

/-- Helper: the invariant lifted to whole parsed hunks. -/
theorem parse_single_newidx (lines : List String) (d : Diff)
    (h : parse_diff_str_single_hunk lines = .ok d) :
    ∀ c ∈ d.changes, c.new_line_idx.isSome
      = (c.operator == Operator.ADD || c.operator == Operator.NO_CHANGE) := by
  rw [parse_diff_str_single_hunk] at h
  cases hf : findHeader lines with
  | none => rw [hf] at h; exact absurd h (by simp)
  | some pr =>
    obtain ⟨⟨os, ol, ns, nl⟩, rest⟩ := pr
    rw [hf] at h
    dsimp only at h
    cases hbody : parseBodyLines ((os : Int) - 1) ((ns : Int) - 1) rest with
    | error e => rw [hbody] at h; exact absurd h (by simp [Except.map])
    | ok chs =>
      rw [hbody] at h
      simp only [Except.map, Except.ok.injEq] at h
      subst h
      exact parseBodyLines_newidx rest _ _ _ hbody

/-- C5 counterexample: with `context_window = 0` the Python slice
`before[-0:]` evaluates to `before[0:]`, keeping the WHOLE before list
instead of clipping it to its last 0 entries, so the embedded clipping
differs from the claimed one. -/
theorem align_context_zero_counterexample :
    alignClipped ⟨0, 0, 1, 1, [⟨.ADD, "x\n", none, some 0⟩]⟩ 1 0 = (["+x\n"], []) ∧
    specAlignClipped ⟨0, 0, 1, 1, [⟨.ADD, "x\n", none, some 0⟩]⟩ 1 0 = ([], []) ∧
    alignClipped ⟨0, 0, 1, 1, [⟨.ADD, "x\n", none, some 0⟩]⟩ 1 0
      ≠ specAlignClipped ⟨0, 0, 1, 1, [⟨.ADD, "x\n", none, some 0⟩]⟩ 1 0 :=
  ⟨rfl, rfl, by decide⟩

/-- C5 (amended): for every parsed hunk and every `context_window ≥ 1`,
the aligner's before/after partition-and-clip equals the specification's
description — walk the lines with a new-line cursor starting at
`new_start_index + 1` that increments only on Add/Context lines, put
every line whose cursor has not passed `line_no` into the before list and
the rest into the after list, then keep the before list's last
`context_window` entries and the after list's first `context_window`
entries; moreover a comment sitting on a new-side line of the hunk (in
particular its first or last new-side line) appears on the before side,
as the before list's final entry. -/
theorem align_partition_spec (lines : List String) (d : Diff) (line_no : Int)
    (cw : Nat) (hparse : parse_diff_str_single_hunk lines = .ok d) (hcw : 1 ≤ cw) :
    alignClipped d line_no cw = specAlignClipped d line_no cw ∧
    ∀ xs ys hit,
      specCursorLines (d.new_start_line_idx + 1) d.changes = xs ++ (line_no, hit) :: ys →
      hit.new_line_idx.isSome = true →
      (alignClipped d line_no cw).1.getLast? = some (renderChange hit) := by
  have hop := parse_single_newidx lines d hparse
  have hspan := partitionChanges_eq_span line_no d.changes hop (d.new_start_line_idx + 1)
  constructor
  · rw [alignClipped, specAlignClipped]
    rw [hspan]
    rw [pySliceLastNeg_guard cw hcw, take_guard]
  · intro xs ys hit hdec hsome
    have hmemhit : hit ∈ d.changes := by
      have hmem : ((line_no, hit) : Int × DiffLine)
          ∈ specCursorLines (d.new_start_line_idx + 1) d.changes := by
        rw [hdec]
        exact List.mem_append_right xs (List.mem_cons_self _ _)
      exact specCursorLines_mem d.changes _ _ hmem
    have hhitop : (hit.operator == Operator.ADD || hit.operator == Operator.NO_CHANGE)
        = true := by
      rw [← hop hit hmemhit]; exact hsome
    obtain ⟨rest', hys⟩ := specCursorLines_decomp d.changes _ xs ys line_no hit hdec
    rw [if_pos hhitop] at hys
    have hys_false : ∀ q ∈ ys, (fun p : Int × DiffLine => decide (p.1 ≤ line_no)) q = false := by
      intro q hq
      rw [hys] at hq
      have := specCursorLines_ge rest' (line_no + 1) q hq
      simp only [decide_eq_false_iff_not, not_le]
      omega
    have hxs_true : ∀ q ∈ xs, (fun p : Int × DiffLine => decide (p.1 ≤ line_no)) q = true := by
      intro q hq
      have hpw := specCursorLines_pairwise d.changes (d.new_start_line_idx + 1)
      rw [hdec] at hpw
      have := (List.pairwise_append.mp hpw).2.2 q hq (line_no, hit)
        (List.mem_cons_self _ _)
      simpa using this
    have htake : (specCursorLines (d.new_start_line_idx + 1) d.changes).takeWhile
        (fun p => decide (p.1 ≤ line_no)) = xs ++ [(line_no, hit)] := by
      rw [hdec, takeWhile_append_of_all _ _ xs hxs_true, List.takeWhile_cons,
        if_pos (by simp), takeWhile_eq_nil_of_all _ ys hys_false]
    rw [alignClipped]
    rw [pySliceLastNeg_guard cw hcw, hspan]
    rw [htake, List.map_append]
    exact getLast?_takeLastN_concat cw hcw _ _

/-- C5 witness: the amended statement at the specification's example
hunk, comment line 2, context window 10. -/
theorem align_partition_spec_witness :
    alignClipped exampleDiff 2 10 = specAlignClipped exampleDiff 2 10 ∧
    ∀ xs ys hit,
      specCursorLines (exampleDiff.new_start_line_idx + 1) exampleDiff.changes
        = xs ++ ((2 : Int), hit) :: ys →
      hit.new_line_idx.isSome = true →
      (alignClipped exampleDiff 2 10).1.getLast? = some (renderChange hit) :=
  align_partition_spec exampleDiffLines exampleDiff 2 10 rfl (by omega)

/-! ### Association-dictionary lemmas for the credential store -/

/-- Helper: inserting a key makes it found with its new value. -/
theorem find?_dictInsert_self {α : Type} (d : List (String × α)) (k : String) (v : α) :
    (dictInsert d k v).find? (fun q => q.1 = k) = some (k, v) := by
  rw [dictInsert]
  by_cases hany : d.any (fun p => p.1 = k) = true
  · rw [if_pos hany]
    induction d with
    | nil => simp at hany
    | cons q0 d' ih =>
      by_cases h0 : q0.1 = k
      · rw [List.map_cons, if_pos h0]
        exact List.find?_cons_of_pos _ (by simp)
      · rw [List.map_cons, if_neg h0]
        rw [List.find?_cons_of_neg _ (by simpa using h0)]
        exact ih (by simpa [List.any_cons, h0] using hany)
  · rw [if_neg hany]
    have hnone : d.find? (fun q => q.1 = k) = none := by
      rw [List.find?_eq_none]
      intro p hp
      simp only [Bool.not_eq_true] at hany
      have := List.any_eq_false.mp hany p hp  -- hmm name check
      simpa using this
    rw [List.find?_append, hnone]
    simp [List.find?]

/-- Helper: the overwrite map of `dictInsert` does not affect lookups of
a different key. -/
theorem find?_map_overwrite {α : Type} (k k' : String) (v : α) (hne : k' ≠ k) :
    ∀ d : List (String × α),
      (d.map (fun p => if p.1 = k then (k, v) else p)).find? (fun q => q.1 = k')
        = d.find? (fun q => q.1 = k') := by
  intro d
  induction d with
  | nil => rfl
  | cons p0 d' ih =>
    rw [List.map_cons]
    by_cases h0 : p0.1 = k
    · have hnp : ¬((fun q : String × α => decide (q.1 = k')) p0 = true) := by
        simp only [decide_eq_true_eq]
        rw [h0]
        exact Ne.symm hne
      have hstep : List.find? (fun q : String × α => decide (q.1 = k')) (p0 :: d')
          = List.find? (fun q => decide (q.1 = k')) d' :=
        List.find?_cons_of_neg _ hnp
      rw [if_pos h0]
      rw [List.find?_cons_of_neg _ (by simpa using Ne.symm hne), hstep]
      exact ih
    · rw [if_neg h0]
      by_cases hq : p0.1 = k'
      · rw [List.find?_cons_of_pos _ (by simpa using hq),
          List.find?_cons_of_pos _ (by simpa using hq)]
      · rw [List.find?_cons_of_neg _ (by simpa using hq),
          List.find?_cons_of_neg _ (by simpa using hq)]
        exact ih

/-- Helper: inserting one key leaves lookups of other keys unchanged. -/
theorem find?_dictInsert_other {α : Type} (d : List (String × α)) (k k' : String)
    (v : α) (hne : k' ≠ k) :
    (dictInsert d k v).find? (fun q => q.1 = k') = d.find? (fun q => q.1 = k') := by
  rw [dictInsert]
  by_cases hany : d.any (fun p => p.1 = k) = true
  · rw [if_pos hany]
    exact find?_map_overwrite k k' v hne d
  · rw [if_neg hany, List.find?_append]
    cases hfd : d.find? (fun q => q.1 = k') with
    | some p => rfl
    | none =>
      rw [List.find?_cons_of_neg _ (by simpa using Ne.symm hne)]
      rfl

/-- Helper: inserting a fresh key appends it. -/
theorem dictInsert_fresh {α : Type} (d : List (String × α)) (k : String) (v : α)
    (h : ∀ p ∈ d, p.1 ≠ k) : dictInsert d k v = d ++ [(k, v)] := by
  rw [dictInsert, if_neg]
  simp only [List.any_eq_true, not_exists, not_and, Bool.not_eq_true]
  intro p hp
  simpa using h p hp

/-- Helper: updating with keys that avoid `k` does not change `k`'s
lookup. -/
theorem find?_dictUpdate_not_mem {α : Type} (data : List (String × α)) :
    ∀ (d : List (String × α)) (k : String), (∀ p ∈ data, p.1 ≠ k) →
      (dictUpdate d data).find? (fun q => q.1 = k) = d.find? (fun q => q.1 = k) := by
  induction data with
  | nil => intro d k _; rfl
  | cons p0 rest ih =>
    intro d k h
    show (dictUpdate (dictInsert d p0.1 p0.2) rest).find? (fun q => q.1 = k)
      = d.find? (fun q => q.1 = k)
    rw [ih (dictInsert d p0.1 p0.2) k (fun p hp => h p (List.mem_cons_of_mem _ hp))]
    exact find?_dictInsert_other d p0.1 k p0.2
      (Ne.symm (h p0 (List.mem_cons_self _ _)))

/-- Helper: updating with a map containing `k` makes `k` read the updated
value. -/
theorem find?_dictUpdate_mem {α : Type} (data : List (String × α)) :
    ∀ (d : List (String × α)) (k : String) (v : α),
      (data.map (fun p => p.1)).Nodup →
      data.find? (fun q => q.1 = k) = some (k, v) →
      (dictUpdate d data).find? (fun q => q.1 = k) = some (k, v) := by
  induction data with
  | nil => intro d k v _ hf; exact absurd hf (by simp)
  | cons p0 rest ih =>
    intro d k v hnd hf
    have hnd' : (rest.map (fun p => p.1)).Nodup :=
      (List.nodup_cons.mp (by simpa using hnd)).2
    by_cases h0 : p0.1 = k
    · have hstep : List.find? (fun q : String × α => decide (q.1 = k)) (p0 :: rest)
          = some p0 := List.find?_cons_of_pos _ (by simpa using h0)
      rw [hstep] at hf
      injection hf with hf'
      have hnmem : p0.1 ∉ rest.map (fun p => p.1) :=
        (List.nodup_cons.mp (by simpa using hnd)).1
      have hrest : ∀ p ∈ rest, p.1 ≠ k := by
        intro p hp hpk
        exact hnmem (h0 ▸ hpk ▸ List.mem_map_of_mem _ hp)
      show (dictUpdate (dictInsert d p0.1 p0.2) rest).find? (fun q => q.1 = k)
        = some (k, v)
      rw [find?_dictUpdate_not_mem rest _ k hrest, hf']
      exact find?_dictInsert_self d k v
    · have hstep : List.find? (fun q : String × α => decide (q.1 = k)) (p0 :: rest)
          = rest.find? (fun q => q.1 = k) :=
        List.find?_cons_of_neg _ (by simpa using h0)
      rw [hstep] at hf
      show (dictUpdate (dictInsert d p0.1 p0.2) rest).find? (fun q => q.1 = k)
        = some (k, v)
      exact ih _ k v hnd' hf

/-- Helper: a key-preserving map commutes with key lookup. -/
theorem find?_map_keyfix {α β : Type} (f : String × α → String × β)
    (hf : ∀ p, (f p).1 = p.1) (k : String) :
    ∀ l : List (String × α),
      (l.map f).find? (fun q => q.1 = k) = (l.find? (fun q => q.1 = k)).map f := by
  intro l
  induction l with
  | nil => rfl
  | cons p0 l' ih =>
    rw [List.map_cons]
    by_cases h0 : p0.1 = k
    · have ha : List.find? (fun q : String × β => decide (q.1 = k)) (f p0 :: l'.map f)
          = some (f p0) := List.find?_cons_of_pos _ (by simp [hf p0, h0])
      have hb : List.find? (fun q : String × α => decide (q.1 = k)) (p0 :: l')
          = some p0 := List.find?_cons_of_pos _ (by simpa using h0)
      rw [ha, hb]
      rfl
    · have ha : List.find? (fun q : String × β => decide (q.1 = k)) (f p0 :: l'.map f)
          = (l'.map f).find? (fun q => q.1 = k) :=
        List.find?_cons_of_neg _ (by simp [hf p0, h0])
      have hb : List.find? (fun q : String × α => decide (q.1 = k)) (p0 :: l')
          = l'.find? (fun q => q.1 = k) :=
        List.find?_cons_of_neg _ (by simpa using h0)
      rw [ha, hb, ih]

/-- Helper: a key-preserving map leaves the key list unchanged. -/
theorem keys_map_keyfix {α β : Type} (f : String × α → String × β)
    (hf : ∀ p, (f p).1 = p.1) :
    ∀ l : List (String × α), (l.map f).map (fun p => p.1) = l.map (fun p => p.1) := by
  intro l
  induction l with
  | nil => rfl
  | cons p0 l' ih => rw [List.map_cons, List.map_cons, List.map_cons, ih, hf]

/-- Helper: the overwrite map of `dictInsert` leaves the key list
unchanged. -/
theorem keys_map_overwrite {α : Type} (k : String) (v : α) :
    ∀ d : List (String × α),
      (d.map (fun p => if p.1 = k then (k, v) else p)).map (fun p => p.1)
        = d.map (fun p => p.1) := by
  intro d
  induction d with
  | nil => rfl
  | cons p0 d' ih =>
    rw [List.map_cons, List.map_cons, List.map_cons, ih]
    by_cases h0 : p0.1 = k
    · rw [if_pos h0, h0]
    · rw [if_neg h0]

/-- Helper: `dictInsert` preserves key-list nodup. -/
theorem nodup_keys_dictInsert {α : Type} (d : List (String × α)) (k : String)
    (v : α) (hnd : (d.map (fun p => p.1)).Nodup) :
    ((dictInsert d k v).map (fun p => p.1)).Nodup := by
  rw [dictInsert]
  by_cases hany : d.any (fun p => p.1 = k) = true
  · rw [if_pos hany, keys_map_overwrite]
    exact hnd
  · rw [if_neg hany, List.map_append]
    rw [List.nodup_append]
    refine ⟨hnd, by simp, ?_⟩
    intro a ha hb
    simp only [List.map_cons, List.map_nil, List.mem_singleton] at hb
    subst hb
    obtain ⟨p, hp, hpk⟩ := List.mem_map.mp ha
    simp only [Bool.not_eq_true] at hany
    have := List.any_eq_false.mp hany p hp
    simp [hpk] at this

/-- Helper: every key of `dictInsert d k v` is a key of `d` or is `k`. -/
theorem mem_keys_dictInsert {α : Type} (d : List (String × α)) (k : String)
    (v : α) : ∀ q ∈ dictInsert d k v, q.1 ∈ d.map (fun p => p.1) ∨ q.1 = k := by
  intro q hq
  rw [dictInsert] at hq
  by_cases hany : d.any (fun p => p.1 = k) = true
  · rw [if_pos hany] at hq
    obtain ⟨p, hp, hpe⟩ := List.mem_map.mp hq
    by_cases h0 : p.1 = k
    · rw [if_pos h0] at hpe
      right
      rw [← hpe]
    · rw [if_neg h0] at hpe
      left
      rw [← hpe]
      exact List.mem_map_of_mem _ hp
  · rw [if_neg hany] at hq
    rcases List.mem_append.mp hq with h | h
    · left
      exact List.mem_map_of_mem _ h
    · right
      rw [List.mem_singleton] at h
      rw [h]

/-- Helper: `dictUpdate` preserves key-list nodup. -/
theorem nodup_keys_dictUpdate {α : Type} (data : List (String × α)) :
    ∀ d : List (String × α), (d.map (fun p => p.1)).Nodup →
      ((dictUpdate d data).map (fun p => p.1)).Nodup := by
  induction data with
  | nil => intro d h; exact h
  | cons p0 rest ih =>
    intro d h
    show ((dictUpdate (dictInsert d p0.1 p0.2) rest).map (fun p => p.1)).Nodup
    exact ih _ (nodup_keys_dictInsert d p0.1 p0.2 h)

/-- Helper: `dictUpdate` preserves any property of keys that the update
data also satisfies. -/
theorem wf_keys_dictUpdate {α : Type} (P : String → Prop) (data : List (String × α)) :
    ∀ d : List (String × α), (∀ p ∈ data, P p.1) → (∀ p ∈ d, P p.1) →
      ∀ q ∈ dictUpdate d data, P q.1 := by
  induction data with
  | nil => intro d _ hd q hq; exact hd q hq
  | cons p0 rest ih =>
    intro d hdata hd q hq
    have hq' : q ∈ dictUpdate (dictInsert d p0.1 p0.2) rest := hq
    refine ih _ (fun p hp => hdata p (List.mem_cons_of_mem _ hp)) ?_ q hq'
    intro r hr
    rcases mem_keys_dictInsert d p0.1 p0.2 r hr with h | h
    · obtain ⟨p, hp, hpe⟩ := List.mem_map.mp h
      rw [← hpe]
      exact hd p hp
    · rw [h]
      exact hdata p0 (List.mem_cons_self _ _)

/-- Helper: `dropWhile` passes over a prefix that satisfies the
predicate. -/
theorem dropWhile_append_of_all {α : Type} (p : α → Bool) (bs : List α) :
    ∀ as : List α, (∀ a ∈ as, p a = true) →
      (as ++ bs).dropWhile p = bs.dropWhile p := by
  intro as
  induction as with
  | nil => intro _; rfl
  | cons a as' ih =>
    intro h
    rw [List.cons_append, List.dropWhile_cons, if_pos (h a (List.mem_cons_self a as')),
      ih (fun x hx => h x (List.mem_cons_of_mem a hx))]

/-- Helper: a serialized `key=value` line parses back to its key and
value whenever the key contains no `=`. -/
theorem parseEnvLine_serialized (k v : String) (hk : '=' ∉ k.data) :
    parseEnvLine (k ++ "=" ++ v) = some (k, some v) := by
  have hdata : (k ++ "=" ++ v).data = k.data ++ '=' :: v.data := by
    rw [String.data_append, String.data_append]
    simp
  have hne : ¬(k ++ "=" ++ v = "") := by
    intro he
    have hd : (k ++ "=" ++ v).data = ("" : String).data := by rw [he]
    rw [hdata] at hd
    simp at hd
  have hwk : ∀ c ∈ k.data, (fun c => decide (c ≠ '=')) c = true := by
    intro c hc
    simp only [decide_eq_true_eq]
    intro he
    exact hk (he ▸ hc)
  rw [parseEnvLine, if_neg hne, hdata,
    takeWhile_append_of_all (fun c => decide (c ≠ '=')) ('=' :: v.data) k.data hwk,
    dropWhile_append_of_all (fun c => decide (c ≠ '=')) ('=' :: v.data) k.data hwk]
  have h1 : ('=' :: v.data).takeWhile (fun c => decide (c ≠ '=')) = [] := by simp
  have h2 : ('=' :: v.data).dropWhile (fun c => decide (c ≠ '=')) = '=' :: v.data := by
    simp
  rw [h1, h2, List.append_nil]

/-- Helper: keys produced by the line parser never contain `=`. -/
theorem parseEnvLine_key_wf (l k : String) (v? : Option String)
    (h : parseEnvLine l = some (k, v?)) : '=' ∉ k.data := by
  rw [parseEnvLine] at h
  split at h
  · exact absurd h (by simp)
  · split at h
    · simp only [Option.some.injEq, Prod.mk.injEq] at h
      intro hmem
      rw [← h.1] at hmem
      have := List.mem_takeWhile_imp hmem
      simp at this
    · simp only [Option.some.injEq, Prod.mk.injEq] at h
      intro hmem
      rw [← h.1] at hmem
      have := List.mem_takeWhile_imp hmem
      simp at this

/-- Helper: the `dotenv_values` fold keeps its dictionary's key list
nodup and its keys free of `=`. -/
theorem dotenv_fold_inv (lines : List String) :
    ∀ acc : List (String × Option String),
      (acc.map (fun p => p.1)).Nodup → (∀ p ∈ acc, '=' ∉ p.1.data) →
      ((lines.foldl dotenvStep acc).map (fun p => p.1)).Nodup ∧
      (∀ p ∈ lines.foldl dotenvStep acc, '=' ∉ p.1.data) := by
  induction lines with
  | nil => intro acc h1 h2; exact ⟨h1, h2⟩
  | cons l ls ih =>
    intro acc h1 h2
    rw [List.foldl_cons]
    cases hp : parseEnvLine l with
    | none =>
      have hid : dotenvStep acc l = acc := by rw [dotenvStep, hp]
      rw [hid]
      exact ih acc h1 h2
    | some kv =>
      have hstep : dotenvStep acc l = dictInsert acc kv.1 kv.2 := by
        rw [dotenvStep, hp]
      rw [hstep]
      refine ih _ (nodup_keys_dictInsert acc kv.1 kv.2 h1) ?_
      intro p hpmem
      rcases mem_keys_dictInsert acc kv.1 kv.2 p hpmem with h | h
      · obtain ⟨q, hq, hqe⟩ := List.mem_map.mp h
        rw [← hqe]
        exact h2 q hq
      · rw [h]
        exact parseEnvLine_key_wf l kv.1 kv.2 (by rw [hp])

/-- Helper: parsing the freshly serialized dictionary reproduces it (keys
`=`-free and globally nodup). -/
theorem dotenv_of_serialized (env : List (String × String)) :
    ∀ acc : List (String × Option String),
      (∀ p ∈ env, '=' ∉ p.1.data) →
      (acc.map (fun p => p.1) ++ env.map (fun p => p.1)).Nodup →
      (env.map (fun p => p.1 ++ "=" ++ p.2)).foldl dotenvStep acc
        = acc ++ env.map (fun p => (p.1, some p.2)) := by
  induction env with
  | nil => intro acc _ _; simp
  | cons p0 rest ih =>
    intro acc hwf hnd
    rw [List.map_cons, List.foldl_cons]
    have hparse : parseEnvLine (p0.1 ++ "=" ++ p0.2) = some (p0.1, some p0.2) :=
      parseEnvLine_serialized p0.1 p0.2 (hwf p0 (List.mem_cons_self _ _))
    have hstep : dotenvStep acc (p0.1 ++ "=" ++ p0.2)
        = dictInsert acc p0.1 (some p0.2) := by
      rw [dotenvStep, hparse]
    rw [hstep]
    have hfresh : ∀ q ∈ acc, q.1 ≠ p0.1 := by
      intro q hq hqe
      have hdisj := (List.nodup_append.mp (by simpa using hnd)).2.2
      exact hdisj (List.mem_map_of_mem _ hq)
        (by rw [hqe]; exact List.mem_cons_self _ _)
    rw [dictInsert_fresh acc p0.1 (some p0.2) hfresh]
    rw [ih (acc ++ [(p0.1, some p0.2)])
      (fun p hp => hwf p (List.mem_cons_of_mem _ hp)) ?_]
    · simp
    · rw [List.map_append, List.append_assoc]
      simpa using hnd

/-- Helper: reading a key from a freshly serialized dictionary returns
that key's value in the dictionary. -/
theorem get_env_value_serialized (env : List (String × String)) (k : String)
    (hwf : ∀ p ∈ env, '=' ∉ p.1.data) (hnd : (env.map (fun p => p.1)).Nodup) :
    get_env_value (env.map (fun p => p.1 ++ "=" ++ p.2)) k
      = (env.find? (fun q => q.1 = k)).map (fun p => p.2) := by
  rw [get_env_value, dotenv_values,
    dotenv_of_serialized env [] hwf (by simpa using hnd), List.nil_append,
    find?_map_keyfix (fun p => (p.1, some p.2)) (fun p => rfl) k env]
  cases h : env.find? (fun q => q.1 = k) <;> rfl

/-- C10: the credential store's update merges into the existing file
contents rather than replacing them — after `store_env_data(d)`, reading
any key of `d` returns `d`'s value for it, and every key that was
readable before the update and is not in `d` is preserved with its prior
value.  Keys must not contain `=` and keys, values and file lines must
not contain a newline (the serialized `key=value` line format). -/
theorem store_env_data_merge (data : List (String × String)) (file : List String)
    (hkeys : ∀ p ∈ data, '=' ∉ p.1.data ∧ '\n' ∉ p.1.data)
    (hvals : ∀ p ∈ data, '\n' ∉ p.2.data)
    (hfile : ∀ l ∈ file, '\n' ∉ l.data)
    (hnodup : (data.map (fun p => p.1)).Nodup) :
    (∀ k v, data.find? (fun p => p.1 = k) = some (k, v) →
      get_env_value (store_env_data data file) k = some v) ∧
    (∀ k v, (∀ p ∈ data, p.1 ≠ k) → get_env_value file k = some v →
      get_env_value (store_env_data data file) k = some v) := by
  have hinv := dotenv_fold_inv file []
    (by simp) (by intro p hp; exact absurd hp (List.not_mem_nil p))
  have hnd0 : (((dotenv_values file).map
      (fun p => (p.1, p.2.getD ""))).map (fun p => p.1)).Nodup := by
    rw [keys_map_keyfix (fun p : String × Option String => (p.1, p.2.getD ""))
      (fun p => rfl)]
    exact hinv.1
  have hwf0 : ∀ p ∈ (dotenv_values file).map (fun p => (p.1, p.2.getD "")),
      '=' ∉ p.1.data := by
    intro p hp
    obtain ⟨q, hq, hqe⟩ := List.mem_map.mp hp
    rw [← hqe]
    exact hinv.2 q hq
  have hnd1 : ((dictUpdate ((dotenv_values file).map
      (fun p => (p.1, p.2.getD ""))) data).map (fun p => p.1)).Nodup :=
    nodup_keys_dictUpdate data _ hnd0
  have hwf1 : ∀ q ∈ dictUpdate ((dotenv_values file).map
      (fun p => (p.1, p.2.getD ""))) data, '=' ∉ q.1.data :=
    wf_keys_dictUpdate (fun s => '=' ∉ s.data) data _
      (fun p hp => (hkeys p hp).1) hwf0
  have hread : ∀ k, get_env_value (store_env_data data file) k
      = ((dictUpdate ((dotenv_values file).map
          (fun p => (p.1, p.2.getD ""))) data).find? (fun q => q.1 = k)).map
          (fun p => p.2) :=
    fun k => get_env_value_serialized _ k hwf1 hnd1
  constructor
  · intro k v hfind
    rw [hread k, find?_dictUpdate_mem data _ k v hnodup hfind]
    rfl
  · intro k v hnmem hvget
    rw [get_env_value] at hvget
    cases hfd : (dotenv_values file).find? (fun p => p.1 = k) with
    | none => rw [hfd] at hvget; exact absurd hvget (by simp)
    | some q =>
      rw [hfd] at hvget
      have hq2 : q.2 = some v := by simpa using hvget
      have hqk : q.1 = k := by
        have := List.find?_some hfd
        simpa using this
      have h0 : ((dotenv_values file).map
          (fun p => (p.1, p.2.getD ""))).find? (fun p => p.1 = k)
          = some (k, v) := by
        rw [find?_map_keyfix (fun p : String × Option String => (p.1, p.2.getD ""))
          (fun p => rfl) k, hfd]
        simp [hqk, hq2]
      rw [hread k, find?_dictUpdate_not_mem data _ k hnmem, h0]
      rfl

/-- C10 witness: storing a fresh API key into a file that already holds
`OLD=1` keeps the old entry and makes the new key readable. -/
theorem store_env_data_merge_witness :
    get_env_value (store_env_data [("RECURSE_API_KEY", "tok")] ["OLD=1"])
      "RECURSE_API_KEY" = some "tok" ∧
    get_env_value (store_env_data [("RECURSE_API_KEY", "tok")] ["OLD=1"]) "OLD"
      = some "1" := by
  have h := store_env_data_merge [("RECURSE_API_KEY", "tok")] ["OLD=1"]
    (by decide) (by decide) (by decide) (by decide)
  exact ⟨h.1 "RECURSE_API_KEY" "tok" (by decide),
    h.2 "OLD" "1" (by decide) (by decide)⟩

end Rml
